import Mathlib

/-!
Verification of the YouTube transcription MCP server.

The development shallowly embeds the core pipeline of the repository:
the time-code codec (`parseVTTTime` / `secondsToVTTTime` in `src/ytdlp.ts`),
the WebVTT caption parser (`extractSubtitles`), the transcript store
(`writeTranscriptFile` / `readTranscriptFile` in `src/io.ts` over the
`src/fs.ts` wrapper), the transcript assembly (`registerTools` in
`src/tools.ts`), and the paginated resource listing (`registerResources`
in `src/resources.ts`).

JavaScript strings are modelled as `List Char`; JavaScript numbers are
modelled as exact rationals (`ℚ`).  Decimal literals of the source such
as `0.010` and `0.95` are embedded as the exact rationals they denote.
-/

/- Rational arithmetic is irreducible by default; executable claims are
settled by kernel evaluation, so restore reducibility. -/
attribute [local semireducible] Rat.add Rat.sub Rat.mul Rat.inv Rat.ofScientific

/-! ## JavaScript string primitives -/

/-- The ASCII whitespace characters recognised by JS `trim` (the source
only ever feeds it ASCII caption text). -/
def jsIsWS (c : Char) : Bool :=
  c = ' ' || c = '\t' || c = '\n' || c = '\r' || c = '\x0b' || c = '\x0c'

/-- JS `String.prototype.trim`: drop whitespace from both ends. -/
def jsTrim (l : List Char) : List Char :=
  ((l.dropWhile jsIsWS).reverse.dropWhile jsIsWS).reverse

/-- Split a character list at every occurrence of the character `c`,
JS `str.split(c)` for a single-character separator. -/
def splitCh (c : Char) : List Char → List (List Char)
  | [] => [[]]
  | a :: as =>
    match splitCh c as with
    | [] => [[a]]
    | r :: rs => if a = c then [] :: r :: rs else (a :: r) :: rs

/-- Index of the first occurrence of `sep` as a contiguous sublist of `l`
(`none` when absent); the position JS `indexOf` would report. -/
def findSub (sep : List Char) : List Char → Option Nat
  | [] => if sep.isEmpty then some 0 else none
  | a :: t =>
    if sep.isPrefixOf (a :: t) then some 0
    else (findSub sep t).map (· + 1)

/-- JS `String.prototype.includes`. -/
def includesSub (l sep : List Char) : Bool :=
  (findSub sep l).isSome

/-- JS `String.prototype.padStart(n, c)`. -/
def padLeft (n : Nat) (c : Char) (l : List Char) : List Char :=
  List.replicate (n - l.length) c ++ l

/-! ## Decimal rendering (JS `Number.prototype.toString` on integers) -/

/-- The decimal digit character for `d < 10`. -/
def digitChar (d : Nat) : Char := Char.ofNat (48 + d)

/-- Fuelled most-significant-first decimal rendering (fuel keeps the
definition structurally recursive so that the kernel can evaluate it). -/
def natDecFuel : Nat → Nat → List Char
  | 0, _ => []
  | f + 1, n => if n < 10 then [digitChar n] else natDecFuel f (n / 10) ++ [digitChar (n % 10)]

/-- Decimal rendering of a natural number, JS `n.toString()` for `n ≥ 0`. -/
def natDec (n : Nat) : List Char := natDecFuel (n + 1) n

/-- Decimal rendering of an integer, JS `n.toString()`. -/
def intDec : Int → List Char
  | .ofNat n => natDec n
  | .negSucc n => '-' :: natDec (n + 1)

/-- Numeric value of a list of decimal digit characters. -/
def decVal (l : List Char) : Nat :=
  l.foldl (fun a c => a * 10 + (c.toNat - 48)) 0

/-- Numeric value of a list of hexadecimal digit characters. -/
def hexVal (l : List Char) : Nat :=
  l.foldl (fun a c =>
    a * 16 +
      (if c.isDigit then c.toNat - 48
       else if 'a' ≤ c ∧ c ≤ 'f' then c.toNat - 87
       else c.toNat - 55)) 0

/-! ## JS numeric parsing (`parseInt`, `parseFloat`)

`parseInt` / `parseFloat` return NaN when no digits can be read; NaN is
modelled as `none`.  The source always post-composes with `|| 0`, which
maps both NaN and `±0` to `0`, i.e. `Option.getD 0` on the model.
JS number values are modelled as exact rationals; the `Infinity`
literal accepted by `parseFloat` is outside the model (no claim
involves it). -/

/-- Read an optional leading sign; returns the sign as `1` or `-1`. -/
def readSign : List Char → Int × List Char
  | '-' :: t => (-1, t)
  | '+' :: t => (1, t)
  | l => (1, l)

def isHexDigit (c : Char) : Bool :=
  c.isDigit || ('a' ≤ c && c ≤ 'f') || ('A' ≤ c && c ≤ 'F')

/-- JS `parseInt(s)` with no radix argument: skips whitespace, reads an
optional sign, then either a `0x`/`0X`-prefixed hexadecimal numeral or a
decimal numeral; NaN (`none`) when no digit follows. -/
def jsParseInt (l : List Char) : Option Int :=
  let l1 := l.dropWhile jsIsWS
  let (sgn, l2) := readSign l1
  match l2 with
  | '0' :: x :: rest =>
    if x = 'x' ∨ x = 'X' then
      let ds := rest.takeWhile isHexDigit
      if ds.isEmpty then none else some (sgn * hexVal ds)
    else
      let ds := (('0' : Char) :: x :: rest).takeWhile Char.isDigit
      some (sgn * decVal ds)
  | l2 =>
    let ds := l2.takeWhile Char.isDigit
    if ds.isEmpty then none else some (sgn * decVal ds)

/-- JS `parseInt(s, 10)`: decimal only. -/
def jsParseInt10 (l : List Char) : Option Int :=
  let l1 := l.dropWhile jsIsWS
  let (sgn, l2) := readSign l1
  let ds := l2.takeWhile Char.isDigit
  if ds.isEmpty then none else some (sgn * decVal ds)

/-- JS `parseFloat(s)`: whitespace, optional sign, integer digits,
optional fraction, optional exponent; NaN (`none`) when neither the
integer part nor the fraction contains a digit. -/
def jsParseFloat (l : List Char) : Option ℚ :=
  let l1 := l.dropWhile jsIsWS
  let (sgn, l2) := readSign l1
  let intDs := l2.takeWhile Char.isDigit
  let rest := l2.dropWhile Char.isDigit
  let (fracDs, rest2) :=
    match rest with
    | '.' :: t => (t.takeWhile Char.isDigit, t.dropWhile Char.isDigit)
    | _ => ([], rest)
  if intDs.isEmpty ∧ fracDs.isEmpty then none
  else
    let mant : ℚ := (decVal intDs : ℚ) + (decVal fracDs : ℚ) / (10 : ℚ) ^ fracDs.length
    let e : Int :=
      match rest2 with
      | 'e' :: t => expVal t
      | 'E' :: t => expVal t
      | _ => 0
    some ((sgn : ℚ) * mant * (10 : ℚ) ^ e)
where
  /-- Value of an exponent suffix; `0` when no digits follow (JS then
  leaves the exponent characters unconsumed, which does not change the
  value). -/
  expVal (t : List Char) : Int :=
    let (es, t2) := readSign t
    let eds := t2.takeWhile Char.isDigit
    if eds.isEmpty then 0 else es * (decVal eds : Int)

/-! ## Time-code codec (`parseVTTTime` / `secondsToVTTTime`, src/ytdlp.ts) -/

/-- `parseVTTTime` of the source: split on `:`, `parseInt` the first two
parts, `parseFloat` the third, each defaulted to `0` by `|| 0`
(an absent part is JS `undefined`, which stringifies to `"undefined"`
and parses to NaN, hence also `0`). -/
def parseVTTTimeL (l : List Char) : ℚ :=
  let parts := splitCh ':' l
  let hours : Int := ((parts.get? 0).bind jsParseInt).getD 0
  let minutes : Int := ((parts.get? 1).bind jsParseInt).getD 0
  let seconds : ℚ := ((parts.get? 2).bind jsParseFloat).getD 0
  (hours : ℚ) * 3600 + (minutes : ℚ) * 60 + seconds

/-- `parseVTTTime` on `String`. -/
def parseVTTTime (s : String) : ℚ := parseVTTTimeL s.data

/-- JS truncating division used by the `%` operator: `Math.trunc (a / b)`. -/
def jsTrunc (q : ℚ) : Int := if 0 ≤ q then ⌊q⌋ else -⌊-q⌋

/-- JS `%` on numbers: `a - b * trunc (a / b)`. -/
def jsMod (a b : ℚ) : ℚ := a - b * (jsTrunc (a / b) : ℚ)

/-- JS `q.toFixed(3)`: round to the nearest thousandth (ties away from
zero) and render with exactly three fractional digits. -/
def jsToFixed3 (q : ℚ) : List Char :=
  let n : Nat := ⌊|q| * 1000 + 1 / 2⌋.toNat
  let body := natDec (n / 1000) ++ '.' :: padLeft 3 '0' (natDec (n % 1000))
  if q < 0 ∧ n ≠ 0 then '-' :: body else body

/-- `secondsToVTTTime` of the source:
hours = `Math.floor(t / 3600)`, minutes = `Math.floor((t % 3600) / 60)`,
seconds = `t % 60`, rendered `HH:MM:` + `seconds.toFixed(3).padStart(6, '0')`. -/
def secondsToVTTTimeL (q : ℚ) : List Char :=
  let hours : Int := ⌊q / 3600⌋
  let minutes : Int := ⌊jsMod q 3600 / 60⌋
  let seconds : ℚ := jsMod q 60
  padLeft 2 '0' (intDec hours) ++ ':' :: padLeft 2 '0' (intDec minutes) ++
    ':' :: padLeft 6 '0' (jsToFixed3 seconds)

/-- `secondsToVTTTime` on `String`. -/
def secondsToVTTTime (q : ℚ) : String := String.mk (secondsToVTTTimeL q)

/-! ## Caption parser (`extractSubtitles` VTT loop, src/ytdlp.ts)

The source iterates over the lines of the caption file; at each line
containing `" --> "` it destructures `line.split(' --> ')` into the
start token and the end token, strips VTT cue settings from the end
token, collects the immediately following non-blank lines as the cue
text, strips `<...>` markup, and keeps the cue only when its parsed
duration exceeds `0.010` seconds. -/

/-- A transcript segment of the string-timestamp deployment
(`TranscriptSegmentSchema` in src/types/transcript.ts). -/
structure TranscriptSegment where
  start_time : String
  end_time : String
  text : String
deriving DecidableEq, Repr

/-- The separator `" --> "` of cue timing lines. -/
def vttSep : List Char := [' ', '-', '-', '>', ' ']

/-- First component of `l.split(sep)`: the characters before the first
occurrence of `sep` (all of `l` when `sep` does not occur). -/
def splitPart0 (sep l : List Char) : List Char :=
  match findSub sep l with
  | some i => l.take i
  | none => l

/-- Second component of `l.split(sep)` when `sep` occurs: the characters
between the first occurrence and the next one (or the end). -/
def splitPart1 (sep l : List Char) : List Char :=
  match findSub sep l with
  | some i => splitPart0 sep (l.drop (i + sep.length))
  | none => []

/-- Drop through the first `'>'`, returning the suffix after it;
`none` when `l` contains no `'>'`. -/
def afterGt (l : List Char) : Option (List Char) :=
  match l.dropWhile (· ≠ '>') with
  | [] => none
  | _ :: t => some t

/-- Fuelled worker for `stripTags`. -/
def stripTagsFuel : Nat → List Char → List Char
  | 0, l => l
  | _ + 1, [] => []
  | f + 1, a :: rest =>
    if a = '<' then
      match afterGt rest with
      | some rest' => stripTagsFuel f rest'
      | none => a :: rest
    else a :: stripTagsFuel f rest

/-- JS `text.replace(/<[^>]*>/g, '')`: repeatedly delete a `'<'`
together with everything up to and including the next `'>'`; a `'<'`
with no later `'>'` cannot be matched by the pattern and stays. -/
def stripTags (l : List Char) : List Char := stripTagsFuel l.length l

/-- The inner loop of the parser: starting right after a timing line,
collect `lines[j].trim()` for the following lines while `lines[j].trim()`
is non-empty, skipping lines that contain `" --> "`. -/
def collectText : List (List Char) → List (List Char)
  | [] => []
  | l :: ls =>
    if (jsTrim l).isEmpty then []
    else if includesSub l vttSep then collectText ls
    else jsTrim l :: collectText ls

/-- Process one timing line `line` (already trimmed) given the list of
following lines: the body of the `if (line.includes(' --> '))` branch. -/
def processCue (line : List Char) (following : List (List Char)) : Option TranscriptSegment :=
  let startTime := splitPart0 vttSep line
  let endTimeWithSettings := splitPart1 vttSep line
  -- strip VTT cue settings (align:start position:0% ...) from the end token
  let endTime := endTimeWithSettings.takeWhile (· ≠ ' ')
  let textLines := collectText following
  if textLines.isEmpty then none
  else
    let cleanText := stripTags (List.intercalate [' '] textLines)
    let startSeconds := parseVTTTimeL (jsTrim startTime)
    let endSeconds := parseVTTTimeL (jsTrim endTime)
    let duration := endSeconds - startSeconds
    -- only include segments longer than 0.010 seconds
    if duration > 1 / 100 then
      some ⟨String.mk (jsTrim startTime), String.mk (jsTrim endTime), String.mk cleanText⟩
    else none

/-- The outer loop over all lines of the caption file. -/
def parseVTTLines : List (List Char) → List TranscriptSegment
  | [] => []
  | l :: ls =>
    let line := jsTrim l
    let rest := parseVTTLines ls
    if includesSub line vttSep then
      match processCue line ls with
      | some seg => seg :: rest
      | none => rest
    else rest

/-- The caption parser: split the file content on newlines and run the
cue-scanning loop. -/
def extractVTTSegments (content : String) : List TranscriptSegment :=
  parseVTTLines (splitCh '\n' content.data)

/-! ## Data model (src/types/transcript.ts, string-timestamp variant)

The store serialises with `JSON.stringify(data, null, 2)` and reads back
with `JSON.parse`; this inverse pair of built-ins is modelled at the
level of JSON trees (a file holds the JSON tree of its pretty-printed
text), so the store model concentrates on what the source adds on top:
existence checks, decoding and Zod schema validation. -/

/-- Transcript metadata (`TranscriptMetadataSchema`). -/
structure TranscriptMetadata where
  transcription_date : String
  source : String
  language : String
  confidence : ℚ
deriving DecidableEq, Repr

/-- The persisted transcript record (`TranscriptSchema`); `duration` is
a `HH:MM:SS.mmm` string in this deployment. -/
structure Transcript where
  video_id : String
  title : String
  uploader : String
  duration : String
  url : String
  transcript : List TranscriptSegment
  metadata : TranscriptMetadata
deriving DecidableEq, Repr

/-- A JSON tree. -/
inductive JsonVal where
  | null : JsonVal
  | bool (b : Bool) : JsonVal
  | num (q : ℚ) : JsonVal
  | str (s : String) : JsonVal
  | arr (elems : List JsonVal) : JsonVal
  | obj (fields : List (String × JsonVal)) : JsonVal

/-- JSON serialisation of a segment (field order of the object literal). -/
def segToJson (s : TranscriptSegment) : JsonVal :=
  .obj [("start_time", .str s.start_time), ("end_time", .str s.end_time),
        ("text", .str s.text)]

/-- JSON serialisation of the metadata object. -/
def metaToJson (m : TranscriptMetadata) : JsonVal :=
  .obj [("transcription_date", .str m.transcription_date), ("source", .str m.source),
        ("language", .str m.language), ("confidence", .num m.confidence)]

/-- JSON serialisation of a transcript record. -/
def transcriptToJson (t : Transcript) : JsonVal :=
  .obj [("video_id", .str t.video_id), ("title", .str t.title),
        ("uploader", .str t.uploader), ("duration", .str t.duration),
        ("url", .str t.url), ("transcript", .arr (t.transcript.map segToJson)),
        ("metadata", metaToJson t.metadata)]

/-- Element-wise traversal of a JSON array under a fallible decoder. -/
def mapMOpt {α β : Type} (f : α → Option β) : List α → Option (List β)
  | [] => some []
  | a :: t => do
    let b ← f a
    let bs ← mapMOpt f t
    pure (b :: bs)

/-- Field lookup in a JSON object. -/
def jLookup (fields : List (String × JsonVal)) (k : String) : Option JsonVal :=
  (fields.find? (fun p => p.1 == k)).map (fun p => p.2)

/-- `z.string()`. -/
def asStr : JsonVal → Option String
  | .str s => some s
  | _ => none

/-- `z.number()`. -/
def asNum : JsonVal → Option ℚ
  | .num q => some q
  | _ => none

/-- Zod parse of `TranscriptSegmentSchema`: every declared field must be
present with the declared type; unknown keys are stripped. -/
def segFromJson (j : JsonVal) : Option TranscriptSegment :=
  match j with
  | .obj fields => do
    let st ← jLookup fields "start_time" >>= asStr
    let et ← jLookup fields "end_time" >>= asStr
    let tx ← jLookup fields "text" >>= asStr
    pure ⟨st, et, tx⟩
  | _ => none

/-- Zod parse of `TranscriptMetadataSchema`; `source` is
`z.enum(["yt_dlp"])` and `confidence` is `z.number().min(0).max(1)`. -/
def metaFromJson (j : JsonVal) : Option TranscriptMetadata :=
  match j with
  | .obj fields => do
    let d ← jLookup fields "transcription_date" >>= asStr
    let src ← jLookup fields "source" >>= asStr
    if src = "yt_dlp" then
      let lang ← jLookup fields "language" >>= asStr
      let conf ← jLookup fields "confidence" >>= asNum
      if 0 ≤ conf ∧ conf ≤ 1 then pure ⟨d, src, lang, conf⟩ else none
    else none
  | _ => none

/-- Zod safeParse of `TranscriptSchema` (`some data` on success). -/
def transcriptFromJson (j : JsonVal) : Option Transcript :=
  match j with
  | .obj fields => do
    let vid ← jLookup fields "video_id" >>= asStr
    let title ← jLookup fields "title" >>= asStr
    let up ← jLookup fields "uploader" >>= asStr
    let dur ← jLookup fields "duration" >>= asStr
    let url ← jLookup fields "url" >>= asStr
    let segsJson ← match jLookup fields "transcript" with
      | some (.arr es) => some es
      | _ => none
    let segs ← mapMOpt segFromJson segsJson
    let md ← jLookup fields "metadata" >>= metaFromJson
    pure ⟨vid, title, up, dur, url, segs, md⟩
  | _ => none

/-! ## Transcript store (src/io.ts over src/fs.ts) -/

/-- The storage directory as a map from file names to file contents;
the most recent write of a name shadows older entries. -/
def FileSys := List (String × JsonVal)

/-- Read a file from the model file system. -/
def fsLookup (fs : FileSys) (name : String) : Option JsonVal :=
  (List.find? (fun p => p.1 == name) fs).map (fun p => p.2)

/-- Whole-file write; overwrites any previous content under `name`. -/
def fsWrite (fs : FileSys) (name : String) (content : JsonVal) : FileSys :=
  (name, content) :: fs

/-- Errors surfaced by the store (src/types/errors.ts):
`TranscriptNotFoundError` carries the requested video id;
`FileSystemError` covers failed validation and decoding. -/
inductive StoreErr where
  | notFound (videoId : String)
  | validationFailed
  | invalidFormat
deriving DecidableEq, Repr

/-- `writeTranscriptFile`: ensure the directory exists (a no-op on the
model file system), then `fs.writeJSON(filepath, data, TranscriptSchema)`,
which validates `data` against the schema before serialising it.
Returns the new file system and the file path. -/
def writeTranscriptFile (fs : FileSys) (videoId : String) (t : Transcript) :
    Except StoreErr (FileSys × String) :=
  let filename := videoId ++ ".json"
  match transcriptFromJson (transcriptToJson t) with
  | none => .error .validationFailed
  | some _ => .ok (fsWrite fs filename (transcriptToJson t), "transcripts/" ++ filename)

/-- `readTranscriptFile`: throw `TranscriptNotFoundError(videoId)` when
the file does not exist, else JSON-decode and schema-validate. -/
def readTranscriptFile (fs : FileSys) (videoId : String) : Except StoreErr Transcript :=
  let filename := videoId ++ ".json"
  match fsLookup fs filename with
  | none => .error (.notFound videoId)
  | some j =>
    match transcriptFromJson j with
    | some t => .ok t
    | none => .error .invalidFormat

/-- `transcriptFileExists`. -/
def transcriptFileExists (fs : FileSys) (videoId : String) : Bool :=
  (fsLookup fs (videoId ++ ".json")).isSome

/-! ## External extractor adapter (`execYtDlp` / `extractSubtitles`, src/ytdlp.ts)

A process invocation either succeeds with captured stdout or fails; a
failure carries the `execFile` error fields `code` (a number or a string
such as `"ENOENT"`, possibly absent), `stderr` and `message` (possibly
absent).  The file-system side of `extractSubtitles` is supplied as the
directory listing and a content function for the temp `.vtt` file. -/

/-- A JS exit-code value: `execFile` reports `error.code` as a number or
a string. -/
inductive JsCode where
  | num (n : Int)
  | str (s : String)
deriving DecidableEq, Repr

/-- JS truthiness of an exit-code value (`0` and `""` are falsy). -/
def jsCodeTruthy : JsCode → Bool
  | .num n => n ≠ 0
  | .str s => s ≠ ""

/-- The error object thrown by `execFile` on a failed invocation. -/
structure ExecFailure where
  code : Option JsCode
  stderr : Option String
  message : Option String
deriving DecidableEq, Repr

/-- Outcome of one external `yt-dlp` invocation. -/
def ExecOutcome := Except ExecFailure String

/-- `execError.code || 'unknown'`. -/
def carriedCode (e : ExecFailure) : JsCode :=
  match e.code with
  | some c => if jsCodeTruthy c then c else .str "unknown"
  | none => .str "unknown"

/-- `execError.stderr || ''`. -/
def carriedStderr (e : ExecFailure) : String := e.stderr.getD ""

/-- `execError.message || 'yt-dlp execution failed'`. -/
def carriedMessage (e : ExecFailure) : String :=
  match e.message with
  | some m => if m ≠ "" then m else "yt-dlp execution failed"
  | none => "yt-dlp execution failed"

/-- The errors `execYtDlp` can throw: the `NO_SUBTITLES_AVAILABLE`
sentinel error, or a `YtDlpError` carrying message, exit code and
stderr. -/
inductive YtErr where
  | noSubtitlesSentinel
  | ytDlpFailure (message : String) (exitCode : JsCode) (stderr : String)
deriving DecidableEq, Repr

/-- `execYtDlp`: return stdout on success; on failure, throw the
sentinel error when stderr reports missing subtitles, else a
`YtDlpError` with the carried exit code and stderr. -/
def execYtDlp (o : ExecOutcome) : Except YtErr String :=
  match o with
  | .ok stdout => .ok stdout
  | .error e =>
    let stderr := carriedStderr e
    if includesSub stderr.data ("no automatic subtitles").data ∨
        includesSub stderr.data ("no subtitles").data then
      .error .noSubtitlesSentinel
    else
      .error (.ytDlpFailure (carriedMessage e) (carriedCode e) stderr)

/-- Result type of `extractSubtitles`. -/
structure SubtitleExtractionResult where
  transcriptSegments : List TranscriptSegment
  language : String
deriving DecidableEq, Repr

/-- `l.startsWith p` on strings. -/
def strStartsWith (l p : List Char) : Bool := p.isPrefixOf l

/-- `l.endsWith p` on strings. -/
def strEndsWith (l p : List Char) : Bool := p.reverse.isPrefixOf l.reverse

/-- `extractSubtitles`: run the subtitle invocation; a sentinel
no-subtitles error yields an empty result with language `"unknown"`,
any other error is re-thrown.  On success, locate the temp `.vtt` file
by prefix in the working directory, parse its content (deleting the
file afterwards, invisible to the result), defaulting to an empty
result when no file was produced. -/
def extractSubtitles (o : ExecOutcome) (dirFiles : List String)
    (fileContent : String → String) (videoId : String) :
    Except YtErr SubtitleExtractionResult :=
  match execYtDlp o with
  | .error .noSubtitlesSentinel => .ok ⟨[], "unknown"⟩
  | .error e => .error e
  | .ok _ =>
    match dirFiles.find? (fun f =>
        strStartsWith f.data ("temp_" ++ videoId).data && strEndsWith f.data (".vtt").data) with
    | some f => .ok ⟨extractVTTSegments (fileContent f), "en"⟩
    | none => .ok ⟨[], "unknown"⟩

/-! ## Transcript assembly (`registerTools`, src/tools.ts)

The orchestration after a successful metadata fetch: try the caption
fetch, swallowing any error it throws (`catch` logs and proceeds with
zero segments and language `"unknown"`), build the transcript record
with the sentinel segment and confidence heuristic, persist it, and
produce the summary result. -/

/-- Video metadata as returned by `getVideoMetadata` in this deployment
(`duration` is already formatted `HH:MM:SS.mmm`). -/
structure VideoMetadataR where
  id : String
  title : String
  uploader : String
  duration : String
deriving DecidableEq, Repr

/-- The summary returned inline by the `transcribe_youtube` tool
(`ToolTranscribeYoutubeOutput`); the full transcript is only retrievable
through `get_transcript`. -/
structure TranscribeSummary where
  video_id : String
  title : String
  uploader : String
  transcript_segments_count : Nat
  next_videoId : String
deriving DecidableEq, Repr

/-- The sentinel segment substituted when extraction produced nothing. -/
def sentinelSegment : TranscriptSegment :=
  ⟨"00:00:00.000", "00:00:00.000", "No transcript available for this video"⟩

/-- The transcript record built by the tool handler. -/
def assembleTranscript (meta : VideoMetadataR) (url date : String)
    (segs : List TranscriptSegment) (language : String) : Transcript :=
  { video_id := meta.id
    title := meta.title
    uploader := meta.uploader
    duration := meta.duration
    url := url
    transcript := if segs.length > 0 then segs else [sentinelSegment]
    metadata :=
      { transcription_date := date
        source := "yt_dlp"
        language := language
        confidence := if segs.length > 0 then 19 / 20 else 0 } }

/-- The `transcribe_youtube` handler after a successful metadata fetch:
caption-fetch result in, updated store and summary out. -/
def transcribeCore (fs : FileSys) (meta : VideoMetadataR) (url date : String)
    (captionResult : Except YtErr SubtitleExtractionResult) :
    Except StoreErr (FileSys × TranscribeSummary) :=
  let (segs, language) :=
    match captionResult with
    | .ok r => (r.transcriptSegments, r.language)
    | .error _ => ([], "unknown")
  let transcriptData := assembleTranscript meta url date segs language
  match writeTranscriptFile fs meta.id transcriptData with
  | .error e => .error e
  | .ok (fs2, _) =>
    .ok (fs2, ⟨meta.id, meta.title, meta.uploader, segs.length, meta.id⟩)

/-! ## Resource listing pagination (`registerResources`, src/resources.ts)

The list-resources handler refreshes the in-memory resource list from
the store, base64-decodes the optional cursor with `atob`, parses it
with `parseInt(·, 10)`, keeps offset `0` when the result is NaN, and
pages with `PAGE_SIZE = 10` via `Array.prototype.slice`. -/

/-- A discoverable resource entry. -/
structure Resource where
  uri : String
  name : String
deriving DecidableEq, Repr

/-- The base64 alphabet value of a character. -/
def b64Val (c : Char) : Option Nat :=
  if 'A' ≤ c ∧ c ≤ 'Z' then some (c.toNat - 65)
  else if 'a' ≤ c ∧ c ≤ 'z' then some (c.toNat - 97 + 26)
  else if '0' ≤ c ∧ c ≤ '9' then some (c.toNat - 48 + 52)
  else if c = '+' then some 62
  else if c = '/' then some 63
  else none

/-- The base64 alphabet character for a 6-bit value. -/
def b64Char (n : Nat) : Char :=
  if n < 26 then Char.ofNat (65 + n)
  else if n < 52 then Char.ofNat (97 + (n - 26))
  else if n < 62 then Char.ofNat (48 + (n - 52))
  else if n = 62 then '+'
  else '/'

/-- Recombine decoded sextets into bytes (the payload length determines
how many bytes the final group carries). -/
def b64Regroup : List Nat → Option (List Nat)
  | [] => some []
  | [_] => none
  | [a, b] => some [a * 4 + b / 16]
  | [a, b, c] => some [a * 4 + b / 16, b % 16 * 16 + c / 4]
  | a :: b :: c :: d :: rest => do
    let tail ← b64Regroup rest
    pure ((a * 4 + b / 16) :: (b % 16 * 16 + c / 4) :: (c % 4 * 64 + d) :: tail)

/-- Strip at most two trailing `'='` padding characters. -/
def b64StripPad (l : List Char) : List Char :=
  let l1 := if l.getLast? = some '=' then l.dropLast else l
  if l1.getLast? = some '=' then l1.dropLast else l1

/-- JS `atob`: forgiving base64 decode (ASCII whitespace removed,
optional padding); throws (`none`) on a malformed encoding. -/
def atob (s : String) : Option String := do
  let cs := (s.data.filter (fun c => ¬ jsIsWS c))
  let cs := b64StripPad cs
  let sextets ← cs.mapM b64Val
  let bytes ← b64Regroup sextets
  pure (String.mk (bytes.map Char.ofNat))

/-- Encode byte values as base64 with padding. -/
def b64Encode : List Nat → List Char
  | [] => []
  | [a] => [b64Char (a / 4), b64Char (a % 4 * 16), '=', '=']
  | [a, b] => [b64Char (a / 4), b64Char (a % 4 * 16 + b / 16), b64Char (b % 16 * 4), '=']
  | a :: b :: c :: rest =>
    b64Char (a / 4) :: b64Char (a % 4 * 16 + b / 16) ::
      b64Char (b % 16 * 4 + c / 64) :: b64Char (c % 64) :: b64Encode rest

/-- JS `btoa` (defined for strings of char codes below 256, which is all
the source ever encodes). -/
def btoa (s : String) : String := String.mk (b64Encode (s.data.map Char.toNat))

/-- JS `Array.prototype.slice(s, e)`: negative indices count from the
end; both are clamped to `[0, length]`. -/
def jsSlice {α : Type} (l : List α) (s e : Int) : List α :=
  let n : Int := l.length
  let s1 := if s < 0 then max (n + s) 0 else min s n
  let e1 := if e < 0 then max (n + e) 0 else min e n
  (l.drop s1.toNat).take (e1.toNat - s1.toNat)

/-- The list-resources handler on the loaded resource list: decode the
cursor (propagating an `atob` exception), default a NaN offset to `0`,
and return the page `slice(startIndex, min(startIndex + 10, n))`
together with `nextCursor = btoa(endIndex.toString())` exactly when
`endIndex < n`. -/
def listResourcesHandler (resources : List Resource) (cursor : Option String) :
    Except Unit (List Resource × Option String) := do
  let startIndex : Int ←
    match cursor with
    | none => pure 0
    | some c =>
      match atob c with
      | none => .error ()
      | some s =>
        match jsParseInt10 s.data with
        | none => pure 0
        | some k => pure k
  let n : Int := resources.length
  let endIndex : Int := min (startIndex + 10) n
  let page := jsSlice resources startIndex endIndex
  let nextCursor : Option String :=
    if endIndex < n then some (btoa (String.mk (intDec endIndex))) else none
  pure (page, nextCursor)

/-! ## Lemmas: caption-parser duration filter -/

/-- `parseVTTTime` on a packed character list. -/
theorem parseVTTTime_mk (l : List Char) : parseVTTTime (String.mk l) = parseVTTTimeL l := rfl

/-- Any segment produced from a single cue passed the `> 0.010`
duration filter. -/
theorem processCue_duration {line : List Char} {fol : List (List Char)}
    {seg : TranscriptSegment} (h : processCue line fol = some seg) :
    parseVTTTime seg.end_time - parseVTTTime seg.start_time > 1 / 100 := by
  simp only [processCue] at h
  split at h
  · exact absurd h (by simp)
  · split at h
    · rename_i hdur
      cases h
      simpa [parseVTTTime_mk] using hdur
    · exact absurd h (by simp)

/-- Every segment emitted by the cue-scanning loop passed the duration
filter. -/
theorem parseVTTLines_duration :
    ∀ lines : List (List Char), ∀ seg ∈ parseVTTLines lines,
      parseVTTTime seg.end_time - parseVTTTime seg.start_time > 1 / 100 := by
  intro lines
  induction lines with
  | nil => intro seg h; simp [parseVTTLines] at h
  | cons l ls ih =>
    intro seg h
    simp only [parseVTTLines] at h
    split at h
    · revert h
      cases hc : processCue (jsTrim l) ls with
      | none => intro h; exact ih seg h
      | some s =>
        intro h
        rcases List.mem_cons.mp h with h1 | h2
        · exact h1 ▸ processCue_duration hc
        · exact ih seg h2
    · exact ih seg h

/-- Every segment emitted by the caption parser has duration strictly
above the `0.010` threshold. -/
theorem extractVTTSegments_duration (content : String) :
    ∀ seg ∈ extractVTTSegments content,
      parseVTTTime seg.end_time - parseVTTTime seg.start_time > 1 / 100 :=
  parseVTTLines_duration (splitCh '\n' content.data)

/-! ## Claims C1 and C2: parser filtering and the duration invariant -/

/-- C1, counterexample: a cue whose only text line is `"<c></c>"` joins
to a text that strips to the empty string, yet the parser still emits a
segment (with empty text) because the discard test checks only that the
list of collected text lines is empty, before markup stripping. -/
theorem markupOnlyCue_is_emitted :
    extractVTTSegments "00:00:01.000 --> 00:00:05.000\n<c></c>" =
      [⟨"00:00:01.000", "00:00:05.000", ""⟩] ∧
      stripTags ("<c></c>").data = [] := by
  constructor
  · decide
  · decide

/-- C1 (amended): the parser discards a cue whenever its duration is at
most `0.010` seconds or it has no following non-blank text lines, so
every emitted segment has duration strictly greater than `0.010`; in
particular the cue `00:00:01.000 --> 00:00:01.005` yields no segment.
(A cue whose collected text strips to the empty string is still
emitted, with empty text.) -/
theorem cue_duration_filter :
    (∀ content : String, ∀ seg ∈ extractVTTSegments content,
        parseVTTTime seg.end_time - parseVTTTime seg.start_time > 1 / 100) ∧
      extractVTTSegments "00:00:01.000 --> 00:00:01.005\nhello" = [] := by
  refine ⟨extractVTTSegments_duration, by decide⟩

set_option maxHeartbeats 1600000 in
/-- C1 witness: the duration bound instantiated on a concrete caption
file with one surviving cue. -/
theorem cue_duration_filter_witness :
    extractVTTSegments "00:00:00.000 --> 00:00:02.000\nhi" =
        [⟨"00:00:00.000", "00:00:02.000", "hi"⟩] ∧
      parseVTTTime "00:00:02.000" - parseVTTTime "00:00:00.000" > 1 / 100 := by
  have hEq : extractVTTSegments "00:00:00.000 --> 00:00:02.000\nhi" =
      [⟨"00:00:00.000", "00:00:02.000", "hi"⟩] := by decide
  exact ⟨hEq, cue_duration_filter.1 "00:00:00.000 --> 00:00:02.000\nhi"
    ⟨"00:00:00.000", "00:00:02.000", "hi"⟩
    (by rw [hEq]; exact List.mem_cons_self _ _)⟩

/-- C2: every segment emitted by the caption parser satisfies
`end ≥ start` — the duration filter drops any cue whose parsed end time
is not strictly later than its parsed start time, including malformed
timing lines whose end time parses smaller than the start time. -/
theorem extract_end_ge_start (content : String) :
    ∀ seg ∈ extractVTTSegments content,
      parseVTTTime seg.start_time ≤ parseVTTTime seg.end_time := by
  intro seg h
  have := extractVTTSegments_duration content seg h
  linarith

set_option maxHeartbeats 1600000 in
/-- C2 witness: the invariant instantiated on a caption file that also
contains a malformed reversed-times cue (which is dropped). -/
theorem extract_end_ge_start_witness :
    extractVTTSegments
        "00:00:05.000 --> 00:00:01.000\nbad\n\n00:00:03.000 --> 00:00:04.500\nok" =
        [⟨"00:00:03.000", "00:00:04.500", "ok"⟩] ∧
      parseVTTTime "00:00:03.000" ≤ parseVTTTime "00:00:04.500" := by
  have hEq : extractVTTSegments
      "00:00:05.000 --> 00:00:01.000\nbad\n\n00:00:03.000 --> 00:00:04.500\nok" =
      [⟨"00:00:03.000", "00:00:04.500", "ok"⟩] := by decide
  exact ⟨hEq, extract_end_ge_start
    "00:00:05.000 --> 00:00:01.000\nbad\n\n00:00:03.000 --> 00:00:04.500\nok"
    ⟨"00:00:03.000", "00:00:04.500", "ok"⟩
    (by rw [hEq]; exact List.mem_cons_self _ _)⟩

/-! ## Claim C5: reading a missing transcript -/

/-- C5: for every video id with no transcript file in the store,
`readTranscriptFile` fails with `TranscriptNotFoundError` carrying
exactly that video id (it never returns a value). -/
theorem read_missing_fails_notFound (fs : FileSys) (videoId : String)
    (h : fsLookup fs (videoId ++ ".json") = none) :
    readTranscriptFile fs videoId = .error (.notFound videoId) := by
  simp only [readTranscriptFile, h]

/-- C5 witness: reading `"nonexistent"` from an empty store. -/
theorem read_missing_fails_notFound_witness :
    fsLookup ([] : FileSys) ("nonexistent" ++ ".json") = none ∧
      readTranscriptFile ([] : FileSys) "nonexistent" =
        .error (.notFound "nonexistent") :=
  ⟨rfl, read_missing_fails_notFound [] "nonexistent" rfl⟩

/-! ## Claim C8: caption fetch failure handling -/

/-- C8: when the caption invocation exits non-zero and its stderr
contains one of the no-subtitles phrases, `extractSubtitles` does not
fail but returns an empty segment sequence with language `"unknown"`;
any other non-zero exit raises a `YtDlpError` carrying the exit code
and the captured stderr. -/
theorem captionFetch_failure_handling :
    (∀ (e : ExecFailure) (dir : List String) (rf : String → String) (vid : String)
        (n : Int) (s : String),
        e.code = some (.num n) → n ≠ 0 → e.stderr = some s →
        (includesSub s.data ("no automatic subtitles").data = true ∨
          includesSub s.data ("no subtitles").data = true) →
        extractSubtitles (.error e) dir rf vid = .ok ⟨[], "unknown"⟩) ∧
    (∀ (e : ExecFailure) (dir : List String) (rf : String → String) (vid : String)
        (n : Int) (s : String),
        e.code = some (.num n) → n ≠ 0 → e.stderr = some s →
        includesSub s.data ("no automatic subtitles").data = false →
        includesSub s.data ("no subtitles").data = false →
        extractSubtitles (.error e) dir rf vid =
          .error (.ytDlpFailure (carriedMessage e) (.num n) s)) := by
  constructor
  · intro e dir rf vid n s hcode hn hstderr hphrase
    simp only [extractSubtitles, execYtDlp, carriedStderr, hstderr, Option.getD_some]
    rcases hphrase with h | h <;> simp [h]
  · intro e dir rf vid n s hcode hn hstderr h1 h2
    simp only [extractSubtitles, execYtDlp, carriedStderr, hstderr, Option.getD_some,
      h1, h2, carriedCode, hcode]
    simp [jsCodeTruthy, hn]

/-- C8 witness: both branches instantiated on concrete process
failures. -/
theorem captionFetch_failure_handling_witness :
    extractSubtitles
        (.error ⟨some (.num 1), some "yt: no subtitles", some "boom"⟩)
        [] (fun _ => "") "vid0" = .ok ⟨[], "unknown"⟩ ∧
      extractSubtitles
        (.error ⟨some (.num 2), some "HTTP Error 403", some "boom"⟩)
        [] (fun _ => "") "vid0" =
        .error (.ytDlpFailure "boom" (.num 2) "HTTP Error 403") :=
  ⟨captionFetch_failure_handling.1 _ [] (fun _ => "") "vid0" 1 "yt: no subtitles"
      rfl (by decide) rfl (Or.inr (by decide)),
    captionFetch_failure_handling.2 _ [] (fun _ => "") "vid0" 2 "HTTP Error 403"
      rfl (by decide) rfl (by decide) (by decide)⟩

/-! ## Lemmas: schema round-trip -/

/-- A segment survives serialisation followed by Zod parsing. -/
theorem segFromJson_segToJson (s : TranscriptSegment) :
    segFromJson (segToJson s) = some s := by
  cases s; rfl

/-- A segment list survives serialisation followed by Zod parsing. -/
theorem mapM_segFromJson (l : List TranscriptSegment) :
    mapMOpt segFromJson (l.map segToJson) = some l := by
  induction l with
  | nil => rfl
  | cons s t ih => simp [mapMOpt, segFromJson_segToJson, ih]

/-- The schema-validity conditions on a transcript value: everything
else the Zod schema checks is enforced by the types of the model. -/
def schemaValid (t : Transcript) : Prop :=
  t.metadata.source = "yt_dlp" ∧ 0 ≤ t.metadata.confidence ∧ t.metadata.confidence ≤ 1

instance (t : Transcript) : Decidable (schemaValid t) := by
  unfold schemaValid; infer_instance

/-- A schema-valid transcript survives serialisation followed by Zod
parsing (`safeParse` returns a value deep-equal to the input). -/
theorem transcriptFromJson_transcriptToJson (t : Transcript) (h : schemaValid t) :
    transcriptFromJson (transcriptToJson t) = some t := by
  obtain ⟨hsrc, h0, h1⟩ := h
  obtain ⟨vid, title, up, dur, url, segs, md⟩ := t
  obtain ⟨date, src, lang, conf⟩ := md
  simp only at hsrc h0 h1
  subst hsrc
  simp [transcriptFromJson, transcriptToJson, metaToJson, metaFromJson, jLookup,
    asStr, asNum, mapM_segFromJson, h0, h1]

/-- The latest write of a file is what a lookup finds. -/
theorem fsLookup_fsWrite (fs : FileSys) (name : String) (j : JsonVal) :
    fsLookup (fsWrite fs name j) name = some j := by
  simp [fsLookup, fsWrite, List.find?]

/-! ## Claim C4: store round-trip -/

/-- C4: writing a schema-valid transcript under a video id and reading
that id back returns a value deep-equal to the written one (through
serialisation, file write, file read, decode and schema validation). -/
theorem store_roundtrip (fs : FileSys) (videoId : String) (t : Transcript)
    (h : schemaValid t) :
    writeTranscriptFile fs videoId t =
        .ok (fsWrite fs (videoId ++ ".json") (transcriptToJson t),
          "transcripts/" ++ (videoId ++ ".json")) ∧
      readTranscriptFile (fsWrite fs (videoId ++ ".json") (transcriptToJson t)) videoId =
        .ok t := by
  have hr := transcriptFromJson_transcriptToJson t h
  constructor
  · simp [writeTranscriptFile, hr]
  · simp [readTranscriptFile, fsLookup_fsWrite, hr]

/-- C4 witness: the round-trip on a concrete transcript record. -/
theorem store_roundtrip_witness :
    schemaValid
        ⟨"abc123", "T", "U", "00:00:42.000", "https://youtu.be/abc123",
          [⟨"00:00:00.000", "00:00:01.000", "hello"⟩],
          ⟨"2024-01-01T00:00:00.000Z", "yt_dlp", "en", 19 / 20⟩⟩ ∧
      readTranscriptFile
          (fsWrite [] ("abc123" ++ ".json")
            (transcriptToJson
              ⟨"abc123", "T", "U", "00:00:42.000", "https://youtu.be/abc123",
                [⟨"00:00:00.000", "00:00:01.000", "hello"⟩],
                ⟨"2024-01-01T00:00:00.000Z", "yt_dlp", "en", 19 / 20⟩⟩))
          "abc123" =
        .ok
          ⟨"abc123", "T", "U", "00:00:42.000", "https://youtu.be/abc123",
            [⟨"00:00:00.000", "00:00:01.000", "hello"⟩],
            ⟨"2024-01-01T00:00:00.000Z", "yt_dlp", "en", 19 / 20⟩⟩ :=
  ⟨by decide, (store_roundtrip [] "abc123" _ (by decide)).2⟩

/-! ## Claims C3 and C9: assembly degradation and the reported count -/

/-- The transcript assembled for the degraded (or empty) extraction
result is schema-valid. -/
theorem schemaValid_assembleTranscript (meta : VideoMetadataR) (url date : String)
    (segs : List TranscriptSegment) (lang : String) :
    schemaValid (assembleTranscript meta url date segs lang) := by
  refine ⟨rfl, ?_, ?_⟩ <;>
    · simp only [assembleTranscript]
      split <;> norm_num

/-- C3: after a successful metadata fetch, a caption-fetch error is
non-fatal: the assembly still persists a transcript whose transcript
array is exactly the sentinel segment and whose confidence is `0.0`;
with at least one extracted segment, the extracted segments are stored
and the confidence is `0.95`. -/
theorem assembly_degradation :
    (∀ (fs : FileSys) (meta : VideoMetadataR) (url date : String) (err : YtErr),
      ∃ (fs2 : FileSys) (t : Transcript),
        transcribeCore fs meta url date (.error err) =
            .ok (fs2, ⟨meta.id, meta.title, meta.uploader, 0, meta.id⟩) ∧
          readTranscriptFile fs2 meta.id = .ok t ∧
          t.transcript = [sentinelSegment] ∧
          t.metadata.confidence = 0) ∧
    (∀ (fs : FileSys) (meta : VideoMetadataR) (url date : String)
        (segs : List TranscriptSegment) (lang : String), segs ≠ [] →
      ∃ (fs2 : FileSys) (t : Transcript),
        transcribeCore fs meta url date (.ok ⟨segs, lang⟩) =
            .ok (fs2, ⟨meta.id, meta.title, meta.uploader, segs.length, meta.id⟩) ∧
          readTranscriptFile fs2 meta.id = .ok t ∧
          t.transcript = segs ∧
          t.metadata.confidence = 19 / 20) := by
  constructor
  · intro fs meta url date err
    have hr := transcriptFromJson_transcriptToJson _
      (schemaValid_assembleTranscript meta url date [] "unknown")
    refine ⟨fsWrite fs (meta.id ++ ".json")
        (transcriptToJson (assembleTranscript meta url date [] "unknown")),
      assembleTranscript meta url date [] "unknown", ?_, ?_, ?_, ?_⟩
    · simp [transcribeCore, writeTranscriptFile, hr]
    · simp [readTranscriptFile, fsLookup_fsWrite, hr]
    · simp [assembleTranscript]
    · simp [assembleTranscript]
  · intro fs meta url date segs lang hne
    have hpos : segs.length > 0 := List.length_pos.mpr hne
    have hr := transcriptFromJson_transcriptToJson _
      (schemaValid_assembleTranscript meta url date segs lang)
    refine ⟨fsWrite fs (meta.id ++ ".json")
        (transcriptToJson (assembleTranscript meta url date segs lang)),
      assembleTranscript meta url date segs lang, ?_, ?_, ?_, ?_⟩
    · simp [transcribeCore, writeTranscriptFile, hr]
    · simp [readTranscriptFile, fsLookup_fsWrite, hr]
    · simp [assembleTranscript, hpos]
    · simp [assembleTranscript, hpos]

/-- C3 witness: both halves on concrete inputs (a failing caption fetch
and a two-segment extraction). -/
theorem assembly_degradation_witness :
    (∃ (fs2 : FileSys) (t : Transcript),
      transcribeCore [] ⟨"abc", "T", "U", "00:00:42.000"⟩ "u" "d"
          (.error (.ytDlpFailure "boom" (.num 1) "err")) =
          .ok (fs2, ⟨"abc", "T", "U", 0, "abc"⟩) ∧
        readTranscriptFile fs2 "abc" = .ok t ∧
        t.transcript = [sentinelSegment] ∧
        t.metadata.confidence = 0) ∧
    (∃ (fs2 : FileSys) (t : Transcript),
      transcribeCore [] ⟨"abc", "T", "U", "00:00:42.000"⟩ "u" "d"
          (.ok ⟨[⟨"00:00:00.000", "00:00:01.000", "a"⟩,
                 ⟨"00:00:01.000", "00:00:02.000", "b"⟩], "en"⟩) =
          .ok (fs2, ⟨"abc", "T", "U", 2, "abc"⟩) ∧
        readTranscriptFile fs2 "abc" = .ok t ∧
        t.transcript = [⟨"00:00:00.000", "00:00:01.000", "a"⟩,
                        ⟨"00:00:01.000", "00:00:02.000", "b"⟩] ∧
        t.metadata.confidence = 19 / 20) :=
  ⟨assembly_degradation.1 [] ⟨"abc", "T", "U", "00:00:42.000"⟩ "u" "d"
      (.ytDlpFailure "boom" (.num 1) "err"),
    assembly_degradation.2 [] ⟨"abc", "T", "U", "00:00:42.000"⟩ "u" "d"
      [⟨"00:00:00.000", "00:00:01.000", "a"⟩, ⟨"00:00:01.000", "00:00:02.000", "b"⟩]
      "en" (by decide)⟩

/-- C9: when the caption fetch succeeds with zero extracted segments,
the summary reports `transcript_segments_count = 0` (the number of
extracted segments) even though the persisted transcript array holds
one sentinel segment. -/
theorem reported_count_is_extracted_count (fs : FileSys) (meta : VideoMetadataR)
    (url date lang : String) :
    ∃ (fs2 : FileSys) (t : Transcript),
      transcribeCore fs meta url date (.ok ⟨[], lang⟩) =
          .ok (fs2, ⟨meta.id, meta.title, meta.uploader, 0, meta.id⟩) ∧
        readTranscriptFile fs2 meta.id = .ok t ∧
        t.transcript.length = 1 ∧
        t.transcript = [sentinelSegment] := by
  have hr := transcriptFromJson_transcriptToJson _
    (schemaValid_assembleTranscript meta url date [] lang)
  refine ⟨fsWrite fs (meta.id ++ ".json")
      (transcriptToJson (assembleTranscript meta url date [] lang)),
    assembleTranscript meta url date [] lang, ?_, ?_, ?_, ?_⟩
  · simp [transcribeCore, writeTranscriptFile, hr]
  · simp [readTranscriptFile, fsLookup_fsWrite, hr]
  · simp [assembleTranscript]
  · simp [assembleTranscript]

/-! ## Claim C10: resource-listing pagination -/

/-- `Array.prototype.slice` with natural-number indices is drop/take. -/
theorem jsSlice_ofNat {α : Type} (l : List α) (a b : Nat) :
    jsSlice l (a : Int) (b : Int) = (l.drop a).take (b - a) := by
  simp only [jsSlice]
  have ha : ¬ ((a : Int) < 0) := by omega
  have hb : ¬ ((b : Int) < 0) := by omega
  simp only [ha, hb, if_false]
  have hsa : (min (a : Int) (l.length : Int)).toNat = min a l.length := by omega
  have hsb : (min (b : Int) (l.length : Int)).toNat = min b l.length := by omega
  rw [hsa, hsb]
  rcases le_or_lt a l.length with h | h
  · rw [Nat.min_eq_left h]
    refine List.take_eq_take.mpr ?_
    simp only [List.length_drop]
    omega
  · have hd1 : List.drop a l = [] := List.drop_eq_nil_of_le (le_of_lt h)
    have hm : min a l.length = l.length := Nat.min_eq_right (le_of_lt h)
    rw [hm, List.drop_length, hd1]
    simp

/-- C10: a cursor whose decoded content is not numeric is silently
treated as the first page (same result as no cursor at all, not an
error); a cursor decoding to a natural number `k` yields the page
`slice(k, min(k + 10, n))`, i.e. ten resources starting at offset `k`,
and `nextCursor` is present exactly when `min(k + 10, n) < n`. -/
theorem listResources_pagination :
    (∀ (rs : List Resource) (c s : String),
      atob c = some s → jsParseInt10 s.data = none →
      listResourcesHandler rs (some c) = listResourcesHandler rs none) ∧
    (∀ (rs : List Resource) (c s : String) (k : Nat),
      atob c = some s → jsParseInt10 s.data = some (k : Int) →
      ∃ (page : List Resource) (nc : Option String),
        listResourcesHandler rs (some c) = .ok (page, nc) ∧
        page = (rs.drop k).take 10 ∧
        (nc.isSome ↔ k + 10 < rs.length)) := by
  constructor
  · intro rs c s h1 h2
    simp [listResourcesHandler, h1, h2]
  · intro rs c s k h1 h2
    have hmin : min ((k : Int) + 10) (rs.length : Int) = ((min (k + 10) rs.length : Nat) : Int) := by
      omega
    refine ⟨jsSlice rs (k : Int) (min ((k : Int) + 10) (rs.length : Int)),
      if min ((k : Int) + 10) (rs.length : Int) < (rs.length : Int) then
        some (btoa (String.mk (intDec (min ((k : Int) + 10) (rs.length : Int))))) else none,
      ?_, ?_, ?_⟩
    · simp only [listResourcesHandler, h1, h2]
      rfl
    · rw [hmin, jsSlice_ofNat]
      refine List.take_eq_take.mpr ?_
      simp only [List.length_drop]
      omega
    · constructor
      · intro hs
        by_contra hlt
        simp only [not_lt] at hlt
        have : ¬ (min ((k : Int) + 10) (rs.length : Int) < (rs.length : Int)) := by omega
        simp [this] at hs
      · intro hlt
        have : min ((k : Int) + 10) (rs.length : Int) < (rs.length : Int) := by omega
        simp [this]

/-- C10 witness: both halves on concrete cursors (`atob "aGk=" = "hi"`
is not numeric; `atob "MQ==" = "1"` selects offset `1`). -/
theorem listResources_pagination_witness :
    listResourcesHandler [⟨"u0", "r0"⟩, ⟨"u1", "r1"⟩] (some "aGk=") =
        listResourcesHandler [⟨"u0", "r0"⟩, ⟨"u1", "r1"⟩] none ∧
      ∃ (page : List Resource) (nc : Option String),
        listResourcesHandler [⟨"u0", "r0"⟩, ⟨"u1", "r1"⟩] (some "MQ==") = .ok (page, nc) ∧
        page = (([⟨"u0", "r0"⟩, ⟨"u1", "r1"⟩] : List Resource).drop 1).take 10 ∧
        (nc.isSome ↔ 1 + 10 < ([⟨"u0", "r0"⟩, ⟨"u1", "r1"⟩] : List Resource).length) :=
  ⟨listResources_pagination.1 [⟨"u0", "r0"⟩, ⟨"u1", "r1"⟩] "aGk=" "hi" (by decide) (by decide),
    listResources_pagination.2 [⟨"u0", "r0"⟩, ⟨"u1", "r1"⟩] "MQ==" "1" 1 (by decide) (by decide)⟩

/-! ## Lemmas: decimal digits and rendering -/

theorem digitChar_isDigit {d : Nat} (h : d < 10) : (digitChar d).isDigit = true := by
  interval_cases d <;> decide

theorem digitChar_toNat {d : Nat} (h : d < 10) : (digitChar d).toNat = 48 + d := by
  interval_cases d <;> decide

/-- The rendering does not depend on the fuel, as long as it suffices. -/
theorem natDecFuel_congr : ∀ (n f1 f2 : Nat), n < f1 → n < f2 →
    natDecFuel f1 n = natDecFuel f2 n := by
  intro n
  induction n using Nat.strong_induction_on with
  | _ n ih =>
    intro f1 f2 h1 h2
    cases f1 with
    | zero => omega
    | succ f1 =>
      cases f2 with
      | zero => omega
      | succ f2 =>
        by_cases h10 : n < 10
        · simp [natDecFuel, h10]
        · have hd : n / 10 < n := Nat.div_lt_self (by omega) (by omega)
          simp only [natDecFuel, h10, if_false]
          rw [ih (n / 10) hd f1 f2 (by omega) (by omega)]

/-- Enough fuel computes the same rendering as the canonical amount. -/
theorem natDecFuel_sufficient (f n : Nat) (h : n < f) : natDecFuel f n = natDec n :=
  natDecFuel_congr n f (n + 1) h (Nat.lt_succ_self n)

/-- The recurrence satisfied by `natDec`. -/
theorem natDec_unfold (n : Nat) :
    natDec n = if n < 10 then [digitChar n] else natDec (n / 10) ++ [digitChar (n % 10)] := by
  by_cases h10 : n < 10
  · simp [natDec, natDecFuel, h10]
  · have hd : n / 10 < n := Nat.div_lt_self (by omega) (by omega)
    simp only [natDec, natDecFuel, h10, if_false]
    rw [natDecFuel_sufficient n (n / 10) hd]
    rfl

theorem natDec_ne_nil (n : Nat) : natDec n ≠ [] := by
  rw [natDec_unfold]
  split <;> simp

theorem natDec_all_digits (n : Nat) : ∀ c ∈ natDec n, c.isDigit = true := by
  induction n using Nat.strong_induction_on with
  | _ n ih =>
    rw [natDec_unfold]
    split
    · intro c hc
      rw [List.mem_singleton] at hc
      exact hc ▸ digitChar_isDigit (by omega)
    · intro c hc
      rcases List.mem_append.mp hc with h | h
      · exact ih (n / 10) (Nat.div_lt_self (by omega) (by omega)) c h
      · rw [List.mem_singleton] at h
        exact h ▸ digitChar_isDigit (Nat.mod_lt n (by omega))

theorem decVal_append_singleton (l : List Char) (c : Char) :
    decVal (l ++ [c]) = decVal l * 10 + (c.toNat - 48) := by
  simp [decVal, List.foldl_append]

theorem decVal_natDec (n : Nat) : decVal (natDec n) = n := by
  induction n using Nat.strong_induction_on with
  | _ n ih =>
    rw [natDec_unfold]
    split
    · rename_i h
      simp [decVal, digitChar_toNat h]
    · rename_i h
      rw [decVal_append_singleton, ih (n / 10) (Nat.div_lt_self (by omega) (by omega)),
        digitChar_toNat (Nat.mod_lt n (by omega))]
      omega

/-- Prepended `'0'` characters do not change the decimal value. -/
theorem decVal_replicate_zero (k : Nat) (l : List Char) :
    decVal (List.replicate k '0' ++ l) = decVal l := by
  induction k with
  | zero => simp
  | succ k ih =>
    have : List.replicate (k + 1) '0' ++ l = '0' :: (List.replicate k '0' ++ l) := by
      simp [List.replicate_succ]
    rw [this]
    simp only [decVal, List.foldl_cons] at ih ⊢
    simpa using ih

theorem decVal_padLeft (k : Nat) (l : List Char) : decVal (padLeft k '0' l) = decVal l :=
  decVal_replicate_zero _ l

theorem padLeft_length (n : Nat) (c : Char) (l : List Char) :
    (padLeft n c l).length = max n l.length := by
  simp [padLeft]
  omega

theorem natDec_length_le (k : Nat) : ∀ n : Nat, n < 10 ^ k → (natDec n).length ≤ max k 1 := by
  induction k with
  | zero =>
    intro n h
    have hn : n = 0 := by simpa using h
    subst hn
    simp [natDec, natDecFuel]
  | succ k ih =>
    intro n h
    rw [natDec_unfold]
    split
    · simp only [List.length_singleton]
      omega
    · rename_i h10
      rcases Nat.eq_zero_or_pos k with hk0 | hkpos
      · subst hk0
        have h' : n < 10 := by simpa using h
        omega
      · have hk : n / 10 < 10 ^ k := by
          rw [Nat.div_lt_iff_lt_mul (by omega)]
          calc n < 10 ^ (k + 1) := h
          _ = 10 ^ k * 10 := by ring
        have hle := ih (n / 10) hk
        simp only [List.length_append, List.length_singleton]
        omega

theorem natDec_length_one {n : Nat} (h : n < 10) : (natDec n).length = 1 := by
  rw [natDec_unfold, if_pos h]
  rfl

theorem natDec_length_two {n : Nat} (h1 : 10 ≤ n) (h2 : n < 100) : (natDec n).length = 2 := by
  rw [natDec_unfold, if_neg (by omega)]
  have : n / 10 < 10 := by omega
  simp [natDec_length_one this]

/-! ## Lemmas: character classes and scanning -/

theorem digit_not_ws {c : Char} (h : c.isDigit = true) : jsIsWS c = false := by
  cases hw : jsIsWS c
  · rfl
  · exfalso
    simp only [jsIsWS, Bool.or_eq_true, decide_eq_true_eq] at hw
    rcases hw with ((((rfl | rfl) | rfl) | rfl) | rfl) | rfl <;> exact absurd h (by decide)

theorem digit_ne {c : Char} (h : c.isDigit = true) :
    c ≠ ':' ∧ c ≠ '-' ∧ c ≠ '+' ∧ c ≠ 'x' ∧ c ≠ 'X' ∧ c ≠ '.' := by
  refine ⟨?_, ?_, ?_, ?_, ?_, ?_⟩ <;> · rintro rfl; exact absurd h (by decide)

theorem takeWhile_of_all {p : Char → Bool} {l : List Char} (h : ∀ c ∈ l, p c = true) :
    l.takeWhile p = l := by
  induction l with
  | nil => rfl
  | cons a t ih =>
    rw [List.takeWhile_cons, if_pos (h a (List.mem_cons_self a t))]
    rw [ih fun c hc => h c (List.mem_cons_of_mem a hc)]

theorem dropWhile_of_all {p : Char → Bool} {l : List Char} (h : ∀ c ∈ l, p c = true) :
    l.dropWhile p = [] := by
  induction l with
  | nil => rfl
  | cons a t ih =>
    rw [List.dropWhile_cons, if_pos (h a (List.mem_cons_self a t))]
    exact ih fun c hc => h c (List.mem_cons_of_mem a hc)

theorem takeWhile_append_stop {p : Char → Bool} {xs : List Char} (y : Char) (ys : List Char)
    (hall : ∀ c ∈ xs, p c = true) (hy : p y = false) :
    (xs ++ y :: ys).takeWhile p = xs := by
  induction xs with
  | nil => simp [List.takeWhile_cons, hy]
  | cons a t ih =>
    rw [List.cons_append, List.takeWhile_cons, if_pos (hall a (List.mem_cons_self a t))]
    rw [ih fun c hc => hall c (List.mem_cons_of_mem a hc)]

theorem dropWhile_append_stop {p : Char → Bool} {xs : List Char} (y : Char) (ys : List Char)
    (hall : ∀ c ∈ xs, p c = true) (hy : p y = false) :
    (xs ++ y :: ys).dropWhile p = y :: ys := by
  induction xs with
  | nil => simp [List.dropWhile_cons, hy]
  | cons a t ih =>
    rw [List.cons_append, List.dropWhile_cons, if_pos (hall a (List.mem_cons_self a t))]
    exact ih fun c hc => hall c (List.mem_cons_of_mem a hc)

theorem readSign_of_digit {a : Char} (t : List Char) (h : a.isDigit = true) :
    readSign (a :: t) = (1, a :: t) := by
  obtain ⟨-, h2, h3, -, -, -⟩ := digit_ne h
  rw [readSign.eq_def]
  split
  · rename_i heq
    injection heq with heq1 _
    exact absurd heq1 h2
  · rename_i heq
    injection heq with heq1 _
    exact absurd heq1 h3
  · rfl

/-! ## Lemmas: JS numeric parsing on digit strings -/

/-- `parseInt` on a non-empty all-digit string reads the whole string
as a decimal numeral. -/
theorem jsParseInt_digits (l : List Char) (hne : l ≠ [])
    (hall : ∀ c ∈ l, c.isDigit = true) : jsParseInt l = some (decVal l) := by
  obtain ⟨a, t, rfl⟩ := List.exists_cons_of_ne_nil hne
  have ha := hall a (List.mem_cons_self a t)
  have hdw : (a :: t).dropWhile jsIsWS = a :: t := by
    rw [List.dropWhile_cons, if_neg (by simp [digit_not_ws ha])]
  simp only [jsParseInt, hdw, readSign_of_digit t ha]
  split
  · rename_i x rest heq
    injection heq with heq1 heq2
    subst heq1; subst heq2
    have hx := hall x (List.mem_cons_of_mem _ (List.mem_cons_self x rest))
    obtain ⟨-, -, -, hx1, hx2, -⟩ := digit_ne hx
    rw [if_neg (by rintro (rfl | rfl) <;> simp_all)]
    rw [takeWhile_of_all hall]
    simp
  · rw [takeWhile_of_all hall]
    rw [if_neg (by simp [hne])]
    simp

/-- `parseFloat` on `digits ++ "." ++ digits` reads the integer part
and a fractional part scaled by the fraction length. -/
theorem jsParseFloat_digits (l1 l2 : List Char) (h1 : l1 ≠ [])
    (ha : ∀ c ∈ l1, c.isDigit = true) (hb : ∀ c ∈ l2, c.isDigit = true) :
    jsParseFloat (l1 ++ '.' :: l2) =
      some ((decVal l1 : ℚ) + (decVal l2 : ℚ) / (10 : ℚ) ^ l2.length) := by
  obtain ⟨a, t, rfl⟩ := List.exists_cons_of_ne_nil h1
  have hd : a.isDigit = true := ha a (List.mem_cons_self a t)
  have hdw : ((a :: t) ++ '.' :: l2).dropWhile jsIsWS = (a :: t) ++ '.' :: l2 := by
    rw [List.cons_append, List.dropWhile_cons, if_neg (by simp [digit_not_ws hd])]
  have hrs : readSign ((a :: t) ++ '.' :: l2) = (1, (a :: t) ++ '.' :: l2) := by
    rw [List.cons_append]
    exact readSign_of_digit _ hd
  simp only [jsParseFloat, hdw, hrs]
  rw [takeWhile_append_stop '.' l2 ha (by decide),
    dropWhile_append_stop '.' l2 ha (by decide)]
  simp only [takeWhile_of_all hb, dropWhile_of_all hb]
  rw [if_neg (by simp)]
  simp

/-! ## Lemmas: splitting on a separator character -/

theorem splitCh_ne_nil (c : Char) (l : List Char) : splitCh c l ≠ [] := by
  cases l with
  | nil => simp [splitCh]
  | cons a as =>
    simp only [splitCh]
    cases h : splitCh c as with
    | nil => simp
    | cons r rs => by_cases hac : a = c <;> simp [hac]

theorem splitCh_not_mem {c : Char} {l : List Char} (h : c ∉ l) : splitCh c l = [l] := by
  induction l with
  | nil => rfl
  | cons a as ih =>
    have ha : a ≠ c := fun hac => h (hac ▸ List.mem_cons_self a as)
    have has : c ∉ as := fun hc => h (List.mem_cons_of_mem a hc)
    simp only [splitCh, ih has]
    rw [if_neg ha]

theorem splitCh_append {c : Char} {xs : List Char} (ys : List Char) (h : c ∉ xs) :
    splitCh c (xs ++ c :: ys) = xs :: splitCh c ys := by
  induction xs with
  | nil =>
    obtain ⟨r, rs, hr⟩ := List.exists_cons_of_ne_nil (splitCh_ne_nil c ys)
    simp [splitCh, hr]
  | cons a t ih =>
    have ha : a ≠ c := fun hac => h (hac ▸ List.mem_cons_self a t)
    have hts : c ∉ t := fun hc => h (List.mem_cons_of_mem a hc)
    rw [List.cons_append]
    simp only [splitCh, ih hts]
    rw [if_neg ha]

/-! ## Claim C7: `parseVTTTime` field semantics -/

/-- C7: `parseVTTTime` is total (a pure function of the string) and
positional: after splitting on `':'`, the first field is the hours
(integer parse), the second the minutes (integer parse), and the third
— the last of the `HH:MM:SS` fields — may carry a fractional-seconds
component (float parse); any missing or malformed field contributes
`0` (`parseInt`/`parseFloat` return NaN there, and `|| 0` maps it to
zero), and the result is `hours * 3600 + minutes * 60 + seconds`.
Fields beyond the third are ignored. -/
theorem parseTimecode_positional :
    (∀ a b c : List Char, ':' ∉ a → ':' ∉ b → ':' ∉ c →
      parseVTTTimeL (a ++ ':' :: b ++ ':' :: c) =
        ((jsParseInt a).getD 0 : ℚ) * 3600 + ((jsParseInt b).getD 0 : ℚ) * 60 +
          (jsParseFloat c).getD 0) ∧
    (∀ a b c d : List Char, ':' ∉ a → ':' ∉ b → ':' ∉ c →
      parseVTTTimeL (a ++ ':' :: b ++ ':' :: c ++ ':' :: d) =
        ((jsParseInt a).getD 0 : ℚ) * 3600 + ((jsParseInt b).getD 0 : ℚ) * 60 +
          (jsParseFloat c).getD 0) ∧
    (∀ a b : List Char, ':' ∉ a → ':' ∉ b →
      parseVTTTimeL (a ++ ':' :: b) =
        ((jsParseInt a).getD 0 : ℚ) * 3600 + ((jsParseInt b).getD 0 : ℚ) * 60) ∧
    (∀ a : List Char, ':' ∉ a →
      parseVTTTimeL a = ((jsParseInt a).getD 0 : ℚ) * 3600) := by
  refine ⟨?_, ?_, ?_, ?_⟩
  · intro a b c hA hB hC
    simp [parseVTTTimeL, splitCh_append _ hA, splitCh_append _ hB, splitCh_not_mem hC]
  · intro a b c d hA hB hC
    simp [parseVTTTimeL, splitCh_append _ hA, splitCh_append _ hB, splitCh_append _ hC]
  · intro a b hA hB
    simp [parseVTTTimeL, splitCh_append _ hA, splitCh_not_mem hB]
  · intro a hA
    simp [parseVTTTimeL, splitCh_not_mem hA]

/-- C7 witness: a well-formed timestamp and a fully malformed one
(all fields default to zero). -/
theorem parseTimecode_positional_witness :
    parseVTTTimeL ("01".data ++ ':' :: "02".data ++ ':' :: "03.500".data) = 7447 / 2 ∧
      parseVTTTimeL ("aa".data ++ ':' :: "bb".data ++ ':' :: "cc".data) = 0 :=
  ⟨(parseTimecode_positional.1 "01".data "02".data "03.500".data
      (by decide) (by decide) (by decide)).trans (by decide),
    (parseTimecode_positional.1 "aa".data "bb".data "cc".data
      (by decide) (by decide) (by decide)).trans (by decide)⟩

/-! ## Lemmas: the canonical `HH:MM:SS.mmm` shape -/

theorem pad_digits (k n : Nat) : ∀ c ∈ padLeft k '0' (natDec n), c.isDigit = true := by
  intro c hc
  rcases List.mem_append.mp hc with h | h
  · rw [List.eq_of_mem_replicate h]; decide
  · exact natDec_all_digits n c h

theorem not_colon_of_digits {l : List Char} (h : ∀ c ∈ l, c.isDigit = true) : ':' ∉ l :=
  fun hc => (digit_ne (h ':' hc)).1 rfl

theorem padNat_ne_nil (k n : Nat) : padLeft k '0' (natDec n) ≠ [] := by
  have hlen : (padLeft k '0' (natDec n)).length = max k (natDec n).length := padLeft_length ..
  have hpos : 0 < (natDec n).length := List.length_pos.mpr (natDec_ne_nil n)
  exact List.ne_nil_of_length_pos (by omega)

theorem jsParseInt_padNat (k n : Nat) : jsParseInt (padLeft k '0' (natDec n)) = some n := by
  rw [jsParseInt_digits _ (padNat_ne_nil k n) (pad_digits k n), decVal_padLeft, decVal_natDec]

theorem pad3_length {n : Nat} (h : n < 1000) : (padLeft 3 '0' (natDec n)).length = 3 := by
  rw [padLeft_length]
  have h1 := natDec_length_le 3 n (by norm_num; omega)
  have h2 : 0 < (natDec n).length := List.length_pos.mpr (natDec_ne_nil n)
  omega

theorem jsParseFloat_secondsField (ss mmm : Nat) (h4 : mmm < 1000) :
    jsParseFloat (padLeft 2 '0' (natDec ss) ++ '.' :: padLeft 3 '0' (natDec mmm)) =
      some ((ss : ℚ) + (mmm : ℚ) / 1000) := by
  rw [jsParseFloat_digits _ _ (padNat_ne_nil 2 ss) (pad_digits 2 ss) (pad_digits 3 mmm)]
  rw [decVal_padLeft, decVal_natDec, decVal_padLeft, decVal_natDec, pad3_length h4]
  norm_num

/-- Parsing the canonical timestamp shape gives the mixed-radix value. -/
theorem parse_canonical (hh mm ss mmm : Nat) (h4 : mmm < 1000) :
    parseVTTTimeL (padLeft 2 '0' (natDec hh) ++ ':' :: padLeft 2 '0' (natDec mm) ++ ':' ::
        (padLeft 2 '0' (natDec ss) ++ '.' :: padLeft 3 '0' (natDec mmm))) =
      (hh : ℚ) * 3600 + (mm : ℚ) * 60 + ((ss : ℚ) + (mmm : ℚ) / 1000) := by
  have hA : ':' ∉ padLeft 2 '0' (natDec hh) := not_colon_of_digits (pad_digits 2 hh)
  have hB : ':' ∉ padLeft 2 '0' (natDec mm) := not_colon_of_digits (pad_digits 2 mm)
  have hC : ':' ∉ padLeft 2 '0' (natDec ss) ++ '.' :: padLeft 3 '0' (natDec mmm) := by
    intro hc
    rcases List.mem_append.mp hc with h | h
    · exact (digit_ne (pad_digits 2 ss ':' h)).1 rfl
    · rcases List.mem_cons.mp h with h | h
      · exact absurd h.symm (by decide)
      · exact (digit_ne (pad_digits 3 mmm ':' h)).1 rfl
  rw [parseVTTTimeL]
  simp only [List.cons_append, List.append_assoc]
  rw [splitCh_append _ hA, splitCh_append _ hB, splitCh_not_mem hC]
  simp [jsParseInt_padNat, jsParseFloat_secondsField ss mmm h4]

/-! ## Lemmas: formatting the mixed-radix value -/

theorem intDec_natCast (n : Nat) : intDec (n : Int) = natDec n := rfl

/-- `toFixed(3)` of an exact non-negative `ss + mmm/1000` renders the
seconds digits and exactly three fractional digits. -/
theorem jsToFixed3_canonical (ss mmm : Nat) (h4 : mmm < 1000) :
    jsToFixed3 ((ss : ℚ) + (mmm : ℚ) / 1000) =
      natDec ss ++ '.' :: padLeft 3 '0' (natDec mmm) := by
  have hS0 : (0 : ℚ) ≤ (ss : ℚ) + (mmm : ℚ) / 1000 := by positivity
  have habs : |(ss : ℚ) + (mmm : ℚ) / 1000| = (ss : ℚ) + (mmm : ℚ) / 1000 := abs_of_nonneg hS0
  have hmul : ((ss : ℚ) + (mmm : ℚ) / 1000) * 1000 + 1 / 2 =
      ((ss * 1000 + mmm : Nat) : ℤ) + (1 : ℚ) / 2 := by
    push_cast
    field_simp
  have hfloor : ⌊((ss : ℚ) + (mmm : ℚ) / 1000) * 1000 + 1 / 2⌋ =
      ((ss * 1000 + mmm : Nat) : ℤ) := by
    rw [hmul, Int.floor_int_add, Int.floor_eq_zero_iff.mpr (by constructor <;> norm_num),
      add_zero]
  simp only [jsToFixed3, habs, hfloor, Int.toNat_natCast]
  have hdiv : (ss * 1000 + mmm) / 1000 = ss := by omega
  have hmod : (ss * 1000 + mmm) % 1000 = mmm := by omega
  rw [hdiv, hmod]
  rw [if_neg (by rintro ⟨hneg, -⟩; exact absurd hneg (not_lt.mpr hS0))]

/-- Formatting the mixed-radix value reproduces the canonical shape. -/
theorem secondsToVTT_canonical (hh mm ss mmm : Nat) (h2 : mm < 60) (h3 : ss < 60)
    (h4 : mmm < 1000) :
    secondsToVTTTimeL ((hh : ℚ) * 3600 + (mm : ℚ) * 60 + ((ss : ℚ) + (mmm : ℚ) / 1000)) =
      padLeft 2 '0' (natDec hh) ++ ':' :: padLeft 2 '0' (natDec mm) ++ ':' ::
        (padLeft 2 '0' (natDec ss) ++ '.' :: padLeft 3 '0' (natDec mmm)) := by
  set S : ℚ := (ss : ℚ) + (mmm : ℚ) / 1000 with hSdef
  set q : ℚ := (hh : ℚ) * 3600 + (mm : ℚ) * 60 + S with hqdef
  have hS0 : 0 ≤ S := by rw [hSdef]; positivity
  have hS60 : S < 60 := by
    have hm : (mmm : ℚ) / 1000 < 1 := by
      rw [div_lt_one (by norm_num)]
      exact_mod_cast h4
    have hs : (ss : ℚ) ≤ 59 := by exact_mod_cast Nat.lt_succ_iff.mp h3
    rw [hSdef]; linarith
  have hmm : (mm : ℚ) ≤ 59 := by exact_mod_cast Nat.lt_succ_iff.mp h2
  have hq0 : 0 ≤ q := by rw [hqdef]; positivity
  -- hours
  have hdiv3600 : q / 3600 = ((hh : Int) : ℚ) + ((mm : ℚ) * 60 + S) / 3600 := by
    rw [hqdef]; push_cast; ring
  have hfloor3600 : ⌊q / 3600⌋ = (hh : Int) := by
    rw [hdiv3600, Int.floor_int_add, Int.floor_eq_zero_iff.mpr ⟨by positivity, ?_⟩, add_zero]
    rw [div_lt_one (by norm_num)]
    linarith
  -- q % 3600
  have hmod3600 : jsMod q 3600 = (mm : ℚ) * 60 + S := by
    rw [jsMod, jsTrunc, if_pos (by positivity), hfloor3600]
    rw [hqdef]; push_cast; ring
  -- minutes
  have hfloor60 : ⌊jsMod q 3600 / 60⌋ = (mm : Int) := by
    rw [hmod3600]
    have : ((mm : ℚ) * 60 + S) / 60 = ((mm : Int) : ℚ) + S / 60 := by push_cast; ring
    rw [this, Int.floor_int_add, Int.floor_eq_zero_iff.mpr ⟨by positivity, ?_⟩, add_zero]
    rw [div_lt_one (by norm_num)]
    linarith
  -- seconds
  have hmod60 : jsMod q 60 = S := by
    rw [jsMod, jsTrunc, if_pos (by positivity)]
    have hq60 : q / 60 = ((hh * 60 + mm : Int) : ℚ) + S / 60 := by
      rw [hqdef]; push_cast; ring
    rw [hq60, Int.floor_int_add, Int.floor_eq_zero_iff.mpr ⟨by positivity, ?_⟩, add_zero]
    · rw [hqdef]; push_cast; ring
    · rw [div_lt_one (by norm_num)]
      linarith
  rw [secondsToVTTTimeL, hfloor3600, hmod3600]
  rw [show ((mm : ℚ) * 60 + S) / 60 = jsMod q 3600 / 60 by rw [hmod3600]]
  rw [hfloor60, hmod60, hSdef, jsToFixed3_canonical ss mmm h4, intDec_natCast, intDec_natCast]
  -- the seconds field: pad the rendered `toFixed` output to width six
  have hlen3 : (padLeft 3 '0' (natDec mmm)).length = 3 := pad3_length h4
  rcases lt_or_le ss 10 with hss | hss
  · have hl1 : (natDec ss).length = 1 := natDec_length_one hss
    have hlen5 : (natDec ss ++ '.' :: padLeft 3 '0' (natDec mmm)).length = 5 := by
      simp [hl1, hlen3]
    have hpad6 : padLeft 6 '0' (natDec ss ++ '.' :: padLeft 3 '0' (natDec mmm)) =
        '0' :: natDec ss ++ '.' :: padLeft 3 '0' (natDec mmm) := by
      rw [padLeft, hlen5]; rfl
    have hpad2 : padLeft 2 '0' (natDec ss) = '0' :: natDec ss := by
      rw [padLeft, hl1]; rfl
    rw [hpad6, hpad2]
  · have hl2 : (natDec ss).length = 2 := natDec_length_two hss (by omega)
    have hlen6 : (natDec ss ++ '.' :: padLeft 3 '0' (natDec mmm)).length = 6 := by
      simp [hl2, hlen3]
    have hpad6 : padLeft 6 '0' (natDec ss ++ '.' :: padLeft 3 '0' (natDec mmm)) =
        natDec ss ++ '.' :: padLeft 3 '0' (natDec mmm) := by
      rw [padLeft, hlen6]; rfl
    have hpad2 : padLeft 2 '0' (natDec ss) = natDec ss := by
      rw [padLeft, hl2]; rfl
    rw [hpad6, hpad2]

/-! ## Claim C6: codec round-trip -/

/-- A well-formed `HH:MM:SS.mmm` timestamp: zero-padded two-digit
hours, minutes and seconds, and exactly three fractional digits. -/
def vttTimestamp (hh mm ss mmm : Nat) : String :=
  String.mk (padLeft 2 '0' (natDec hh) ++ ':' :: padLeft 2 '0' (natDec mm) ++ ':' ::
    (padLeft 2 '0' (natDec ss) ++ '.' :: padLeft 3 '0' (natDec mmm)))

/-- C6: for every well-formed `HH:MM:SS.mmm` timestamp,
`secondsToVTTTime (parseVTTTime x)` reproduces `x` character for
character. -/
theorem codec_roundtrip (hh mm ss mmm : Nat) (h1 : hh < 100) (h2 : mm < 60)
    (h3 : ss < 60) (h4 : mmm < 1000) :
    secondsToVTTTime (parseVTTTime (vttTimestamp hh mm ss mmm)) =
      vttTimestamp hh mm ss mmm := by
  rw [vttTimestamp, parseVTTTime_mk, parse_canonical hh mm ss mmm h4, secondsToVTTTime,
    secondsToVTT_canonical hh mm ss mmm h2 h3 h4]

/-- C6 witness: the round-trip on `"01:02:03.456"`. -/
theorem codec_roundtrip_witness :
    vttTimestamp 1 2 3 456 = "01:02:03.456" ∧
      secondsToVTTTime (parseVTTTime (vttTimestamp 1 2 3 456)) = vttTimestamp 1 2 3 456 :=
  ⟨by decide, codec_roundtrip 1 2 3 456 (by decide) (by decide) (by decide) (by decide)⟩
